import Mathlib

/-!
Verification development for the sclang formatter.

The text machinery of `src/format_rules.py` and `src/sclang_format.py` is
embedded shallowly: a buffer is a `List Char`, Python string operations
become structurally recursive list functions, and a Python `IndexError` is
modelled by an `Option` result.  The tree-sitter parsing provider is an
external black box; rules that consume its query captures are embedded as
functions of the capture list, and node order is modelled by the
(start point, end point) lexicographic order of the adapter contract.
-/

/-- Whitespace characters stripped by Python `str.rstrip()` (the ASCII set;
the buffers considered here contain no other Unicode whitespace). -/
def isPySpace (c : Char) : Bool :=
  c == ' ' || c == '\t' || c == '\n' || c == '\r' || c == '\x0b' || c == '\x0c'

/-- Python `data.rstrip()`: remove trailing whitespace of the buffer. -/
def rstrip (data : List Char) : List Char :=
  (data.reverse.dropWhile isPySpace).reverse

/-- `NoMoreThan80Characters._FormatRule__format`: returns the buffer
unchanged. -/
def NoMoreThan80Characters (data : List Char) : List Char := data

/-- `StripTrailingWhitespace._FormatRule__format`: `data = data.rstrip()`. -/
def StripTrailingWhitespace (data : List Char) : List Char := rstrip data

/-- `DontUseSpaceBeforeSemicolons._FormatRule__format`:
`re.sub(" ;", ";", data)` - scanning left to right, each non-overlapping
occurrence of a space followed by a semicolon is replaced by a semicolon;
scanning resumes after the replaced occurrence. -/
def DontUseSpaceBeforeSemicolons : List Char → List Char
  | ' ' :: ';' :: rest => ';' :: DontUseSpaceBeforeSemicolons rest
  | c :: rest => c :: DontUseSpaceBeforeSemicolons rest
  | [] => []

/-- `EndOfFileNewLine._FormatRule__format`: `data = data + "\n"`,
unconditionally. -/
def EndOfFileNewLine (data : List Char) : List Char := data ++ ['\n']

/-- `Helpers.get_all_newline_offsets`:
`[0] + [m.start() for m in re.finditer("(?<=\n)(.|\n)", data)]` -
offset 0 followed by the position of every character that is directly
preceded by a newline, in ascending order. -/
def get_all_newline_offsets (data : List Char) : List Nat :=
  0 :: (List.range data.length).filter fun i =>
    decide (0 < i) && (data.get? (i - 1) == some '\n')

/-- `Helpers.replace_range`: the debug prints read `data[start_offset]` and
`data[end_offset]` before splicing - a Python `IndexError` (modelled as
`none`) when either read is out of range - and on success the function
returns `new_data.join([data[:start_offset], data[end_offset:]])`, that is
`data[:start_offset] + new_data + data[end_offset:]`. -/
def replace_range (data : List Char) (start_offset end_offset : Nat)
    (new_data : List Char) : Option (List Char) :=
  match data.get? start_offset, data.get? end_offset with
  | some _, some _ =>
      some (data.take start_offset ++ new_data ++ data.drop end_offset)
  | _, _ => none

/-- The pure in-place splice `data[:s] + r + data[e:]` used by the rule
bodies (and returned by `replace_range` when its index reads succeed). -/
def splice (data : List Char) (s e : Nat) (r : List Char) : List Char :=
  data.take s ++ r ++ data.drop e

/-- The buffer ends with exactly one newline: its last character is a
newline and its second-to-last character, if it exists, is not. -/
def endsWithExactlyOneNewline (data : List Char) : Bool :=
  (data.getLast? == some '\n') && !(data.dropLast.getLast? == some '\n')

/-- Split the buffer into its lines at newline characters. -/
def splitLines : List Char → List (List Char)
  | '\n' :: rest => [] :: splitLines rest
  | c :: rest =>
    match splitLines rest with
    | [] => [[c]]
    | l :: ls => (c :: l) :: ls
  | [] => [[]]

/-- No line of the buffer ends with a space or a tab character. -/
def noLineTrailingSpaceOrTab (data : List Char) : Bool :=
  (splitLines data).all fun l =>
    !(l.getLast? == some ' ') && !(l.getLast? == some '\t')

/-- The composition of the pipeline rules that transform the buffer by pure
text manipulation, in pipeline order (`pre_format` then `inline_format` then
`post_format`).  Every omitted rule either returns its buffer unchanged
(`NormalizeText` et al. are not registered; `ApplyMagicSigils`,
`FormatComments`, `UseTabsForIndentation`, `UseKRStyle`, `FormatDotNotation`,
`SeparateElementsOntoNewLines`, `FormatMultieLineArray`,
`UseTrailingClosureSyntax` are literal identities) or edits the buffer only
inside a loop over the captures of a structural query
(`JoinElementsOntoSingleLines`, `FormatParameterLists`, `BracketSpacing`,
`AddSpacesAroundAssignment`, `BinaryOperatorSpacing`, `AddSpacesAfterCommas`,
`FormatReturnStatement`, `ParameterListAlignment`, `AddNewlinesInFunctions`)
or over the significant nodes of the tree walk (`IndentFile`); for a buffer
holding a single identifier statement such as `x  ;` none of those queries
produces a capture and the tree walk visits no significant node type, so all
of them return the buffer unchanged and the pipeline reduces to this
composition. -/
def pipelineOnQueryFreeText (data : List Char) : List Char :=
  EndOfFileNewLine
    (DontUseSpaceBeforeSemicolons
      (StripTrailingWhitespace (NoMoreThan80Characters data)))

/-- Claim C1: the full rule pipeline is claimed idempotent for every
parseable input; on the parseable buffer `x  ;` (two spaces before the
semicolon) the first application yields `x ;\n` and the second `x;\n`,
because `DontUseSpaceBeforeSemicolons` removes only one space per pass, so
the second application is not a no-op. -/
theorem pipeline_second_pass_not_noop :
    pipelineOnQueryFreeText (pipelineOnQueryFreeText ['x', ' ', ' ', ';']) ≠
      pipelineOnQueryFreeText ['x', ' ', ' ', ';'] := by
  decide

/-- Claim C2, counterexample: `EndOfFileNewLine` appends a newline
unconditionally, so applied to a buffer that already ends with a newline its
output ends with two of them, not exactly one as claimed. -/
theorem EndOfFileNewLine_two_newlines :
    endsWithExactlyOneNewline (EndOfFileNewLine ['a', '\n']) = false := by
  decide

/-- The head of `dropWhile p` does not satisfy `p`. -/
theorem head?_dropWhile_false (p : Char → Bool) :
    ∀ (l : List Char) (c : Char), (l.dropWhile p).head? = some c → p c = false
  | [], c, h => by simp [List.dropWhile] at h
  | x :: xs, c, h => by
    by_cases hx : p x = true
    · rw [List.dropWhile_cons, if_pos hx] at h
      exact head?_dropWhile_false p xs c h
    · rw [List.dropWhile_cons, if_neg hx] at h
      simp only [List.head?_cons, Option.some.injEq] at h
      subst h
      exact Bool.eq_false_iff.mpr hx

/-- The last character of an `rstrip`-ed buffer is not whitespace. -/
theorem rstrip_getLast?_not_space (data : List Char) (c : Char)
    (h : (rstrip data).getLast? = some c) : isPySpace c = false := by
  rw [rstrip, List.getLast?_reverse] at h
  exact head?_dropWhile_false isPySpace data.reverse c h

/-- Claim C2, amended: `EndOfFileNewLine` appends exactly one newline, and
its pipeline input carries no trailing whitespace because
`StripTrailingWhitespace` ran `rstrip` on the buffer; for every buffer, the
composition of `rstrip` with `EndOfFileNewLine` ends with exactly one
newline, regardless of how many trailing newlines the buffer had. -/
theorem EndOfFileNewLine_after_rstrip (data : List Char) :
    endsWithExactlyOneNewline (EndOfFileNewLine (rstrip data)) = true := by
  rw [EndOfFileNewLine, endsWithExactlyOneNewline,
    List.getLast?_concat, List.dropLast_concat]
  cases h : (rstrip data).getLast? with
  | none => simp
  | some c =>
    have hc := rstrip_getLast?_not_space data c h
    simp only [beq_self_eq_true, Bool.true_and, Bool.not_eq_true',
      beq_eq_false_iff_ne, ne_eq, Option.some.injEq]
    intro hcn
    rw [hcn] at hc
    simp [isPySpace] at hc

/-- Claim C3: `StripTrailingWhitespace` is `data.rstrip()`, which strips
whitespace only at the end of the whole buffer; the buffer `a \nb` is
returned unchanged and its first line still ends with a space, contradicting
the claim that no line of the result ends with a space or tab. -/
theorem StripTrailingWhitespace_leaves_inner_line_whitespace :
    StripTrailingWhitespace ['a', ' ', '\n', 'b'] = ['a', ' ', '\n', 'b'] ∧
      noLineTrailingSpaceOrTab
        (StripTrailingWhitespace ['a', ' ', '\n', 'b']) = false := by
  decide

/-- Claim C5, counterexample: the half-open region `[0, 2)` covers the whole
two-character buffer `ab`, yet `replace_range` does not return the spliced
buffer there - its debug print reads `data[2]` and raises `IndexError`. -/
theorem replace_range_at_buffer_end_fails :
    replace_range ['a', 'b'] 0 2 ['x'] ≠
      some (List.take 0 ['a', 'b'] ++ ['x'] ++ List.drop 2 ['a', 'b']) := by
  decide

/-- Claim C5, amended: whenever both offsets are strictly below the buffer
length, `replace_range(text, start, end, replacement)` returns
`text[:start] + replacement + text[end:]`. -/
theorem replace_range_in_bounds (data : List Char) (s e : Nat) (r : List Char)
    (hs : s < data.length) (he : e < data.length) :
    replace_range data s e r = some (data.take s ++ r ++ data.drop e) := by
  rw [replace_range, List.get?_eq_get hs, List.get?_eq_get he]

/-- Witness for the amended claim C5 at a concrete in-range call. -/
theorem replace_range_in_bounds_witness :
    0 < (['a', 'b', 'c'] : List Char).length ∧
      1 < (['a', 'b', 'c'] : List Char).length ∧
      replace_range ['a', 'b', 'c'] 0 1 ['x'] =
        some (List.take 0 ['a', 'b', 'c'] ++ ['x'] ++ List.drop 1 ['a', 'b', 'c']) :=
  ⟨by decide, by decide,
    replace_range_in_bounds ['a', 'b', 'c'] 0 1 ['x'] (by decide) (by decide)⟩

/-- Claim C10: `replace_range` returns normally exactly when both offsets
are strictly below the buffer length; in particular an edit region ending
exactly at `len(text)` makes the read of `data[end_offset]` raise
`IndexError` (modelled by `none`). -/
theorem replace_range_isSome_iff (data : List Char) (s e : Nat)
    (r : List Char) :
    (replace_range data s e r).isSome = true ↔
      (s < data.length ∧ e < data.length) := by
  rw [replace_range]
  cases h1 : data.get? s with
  | none =>
    rw [List.get?_eq_none] at h1
    simp
    omega
  | some a =>
    cases h2 : data.get? e with
    | none =>
      rw [List.get?_eq_none] at h2
      simp
      omega
    | some b =>
      have h1l : s < data.length := by
        by_contra hc
        rw [List.get?_eq_none.mpr (by omega)] at h1
        exact Option.noConfusion h1
      have h2l : e < data.length := by
        by_contra hc
        rw [List.get?_eq_none.mpr (by omega)] at h2
        exact Option.noConfusion h2
      simp [h1l, h2l]

/-- Claim C7, counterexample: in the buffer `a\n` the newline at index 1 is
a line boundary, but the offset of the position following it (2) is absent
from the table built by `get_all_newline_offsets` - a newline that ends the
text contributes no entry. -/
theorem newline_offsets_miss_final_boundary :
    (['a', '\n'].get? 1 = some '\n') ∧
      ¬ (2 ∈ get_all_newline_offsets ['a', '\n']) := by
  decide

/-- Claim C7, amended: the table maps line 0 to offset 0 (its head), and its
entries are exactly offset 0 together with, for every newline that is
followed by at least one character, the absolute offset of that first
following character - each of several consecutive newlines contributing its
own entry, while a newline that is the last character of the text
contributes none. -/
theorem newline_offsets_characterization (data : List Char) :
    (get_all_newline_offsets data).head? = some 0 ∧
      ∀ j : Nat, j ∈ get_all_newline_offsets data ↔
        (j = 0 ∨ (0 < j ∧ j < data.length ∧ data.get? (j - 1) = some '\n')) := by
  constructor
  · rfl
  · intro j
    simp only [get_all_newline_offsets, List.mem_cons, List.mem_filter,
      List.mem_range, Bool.and_eq_true, decide_eq_true_eq, beq_iff_eq]
    constructor
    · rintro (h | ⟨hlt, hpos, hnl⟩)
      · exact Or.inl h
      · exact Or.inr ⟨hpos, hlt, hnl⟩
    · rintro (h | ⟨hpos, hlt, hnl⟩)
      · exact Or.inl h
      · exact Or.inr ⟨hlt, hpos, hnl⟩

/-- One edit region: start offset, end offset (half-open) and replacement
text, the offsets computed against the original buffer. -/
abbrev Edit := Nat × Nat × List Char

/-- Apply the edits one at a time through `splice`: the list is kept in
ascending start order and `foldr` applies the last (rightmost) region first,
i.e. the replacements are applied strictly in descending order of start
offset, each on the buffer left by the previous one. -/
def applyBackToFront (data : List Char) (edits : List Edit) : List Char :=
  edits.foldr (fun ed acc => splice acc ed.1 ed.2.1 ed.2.2) data

/-- Splice every edit into the original buffer in a single left-to-right
pass: copy the untouched span up to the next region, emit its replacement,
and continue after the region. -/
def spliceAllFrom (data : List Char) : Nat → List Edit → List Char
  | pos, [] => data.drop pos
  | pos, (s, e, r) :: rest =>
      (data.drop pos).take (s - pos) ++ r ++ spliceAllFrom data e rest

/-- Single-pass splice of a whole edit batch into the original buffer. -/
def spliceAll (data : List Char) (edits : List Edit) : List Char :=
  spliceAllFrom data 0 edits

/-- The edit regions are well formed, pairwise disjoint, listed in ascending
start order, lie within the first `len` characters and start no earlier than
`pos`. -/
def chainedB (len : Nat) : Nat → List Edit → Bool
  | _, [] => true
  | pos, (s, e, _) :: rest =>
      decide (pos ≤ s) && decide (s ≤ e) && decide (e ≤ len) &&
        chainedB len e rest

/-- A chained edit batch is still chained from any earlier position. -/
theorem chainedB_mono {len : Nat} :
    ∀ {edits : List Edit} {p q : Nat},
      chainedB len p edits = true → q ≤ p → chainedB len q edits = true
  | [], _, _, _, _ => rfl
  | (s, e, r) :: rest, p, q, h, hq => by
    simp only [chainedB, Bool.and_eq_true, decide_eq_true_eq] at h ⊢
    exact ⟨⟨⟨Nat.le_trans hq h.1.1.1, h.1.1.2⟩, h.1.2⟩, h.2⟩

/-- The single-pass result agrees with the original buffer on any prefix
that ends before the first edit region. -/
theorem take_spliceAllFrom_zero {data : List Char} :
    ∀ {edits : List Edit} {k : Nat},
      chainedB data.length k edits = true →
      (spliceAllFrom data 0 edits).take k = data.take k
  | [], k, _ => by simp [spliceAllFrom]
  | (s, e, r) :: rest, k, h => by
    simp only [chainedB, Bool.and_eq_true, decide_eq_true_eq] at h
    obtain ⟨⟨⟨hks, hse⟩, hel⟩, _⟩ := h
    have hsl : s ≤ data.length := Nat.le_trans hse hel
    simp only [spliceAllFrom, List.drop_zero, Nat.sub_zero]
    rw [List.append_assoc, List.take_append_of_le_length
      (by simpa [Nat.min_eq_left hsl] using hks), List.take_take,
      Nat.min_eq_left hks]

/-- Dropping everything before `k` from the single-pass result restarts the
single pass at `k`, provided every edit region starts at or after `k`. -/
theorem drop_spliceAllFrom_zero {data : List Char} :
    ∀ {edits : List Edit} {k : Nat},
      chainedB data.length k edits = true →
      (spliceAllFrom data 0 edits).drop k = spliceAllFrom data k edits
  | [], k, _ => by simp [spliceAllFrom]
  | (s, e, r) :: rest, k, h => by
    simp only [chainedB, Bool.and_eq_true, decide_eq_true_eq] at h
    obtain ⟨⟨⟨hks, hse⟩, hel⟩, _⟩ := h
    have hsl : s ≤ data.length := Nat.le_trans hse hel
    simp only [spliceAllFrom, List.drop_zero, Nat.sub_zero]
    rw [List.append_assoc, List.drop_append_of_le_length
      (by simpa [Nat.min_eq_left hsl] using hks), List.drop_take,
      ← List.append_assoc]

/-- Claim C6: for a batch of pairwise disjoint edit regions whose offsets
are computed against the original buffer, applying the replacements one at a
time in descending order of start offset produces the same buffer as
splicing all of them into the original buffer in a single pass. -/
theorem back_to_front_edits_eq_single_pass (data : List Char) :
    ∀ edits : List Edit, chainedB data.length 0 edits = true →
      applyBackToFront data edits = spliceAll data edits
  | [], _ => by simp [applyBackToFront, spliceAll, spliceAllFrom]
  | (s, e, r) :: rest, h => by
    have hch := h
    simp only [chainedB, Bool.and_eq_true, decide_eq_true_eq] at hch
    obtain ⟨⟨⟨_, hse⟩, hel⟩, hrest⟩ := hch
    have ih := back_to_front_edits_eq_single_pass data rest
      (chainedB_mono hrest (Nat.zero_le e))
    simp only [applyBackToFront, List.foldr_cons] at ih ⊢
    rw [ih]
    show splice (spliceAll data rest) s e r = spliceAll data ((s, e, r) :: rest)
    rw [splice, spliceAll, spliceAll,
      take_spliceAllFrom_zero (chainedB_mono hrest hse),
      drop_spliceAllFrom_zero hrest]
    simp [spliceAllFrom]

/-- Witness for claim C6 at a concrete two-edit batch. -/
theorem back_to_front_edits_eq_single_pass_witness :
    chainedB (['a', 'b', 'c', 'd', 'e', 'f'] : List Char).length 0
        [(1, 2, ['X']), (4, 5, ['Y', 'Z'])] = true ∧
      applyBackToFront ['a', 'b', 'c', 'd', 'e', 'f']
          [(1, 2, ['X']), (4, 5, ['Y', 'Z'])] =
        spliceAll ['a', 'b', 'c', 'd', 'e', 'f']
          [(1, 2, ['X']), (4, 5, ['Y', 'Z'])] :=
  ⟨by decide,
    back_to_front_edits_eq_single_pass ['a', 'b', 'c', 'd', 'e', 'f']
      [(1, 2, ['X']), (4, 5, ['Y', 'Z'])] (by decide)⟩

/-- A syntax-tree node as the rules see it: a grammar type tag and start and
end (line, column) points, supplied by the parsing provider. -/
structure SNode where
  typ : String
  startPoint : Nat × Nat
  endPoint : Nat × Nat
deriving DecidableEq

/-- A query capture: a matched node together with its capture tag. -/
abbrev Capture := SNode × String

/-- Strict lexicographic order on (line, column) points. -/
def pointLt (a b : Nat × Nat) : Bool :=
  decide (a.1 < b.1) || (decide (a.1 = b.1) && decide (a.2 < b.2))

/-- Lexicographic order on (line, column) points. -/
def pointLe (a b : Nat × Nat) : Bool :=
  decide (a.1 < b.1) || (decide (a.1 = b.1) && decide (a.2 ≤ b.2))

/-- The comparison `sorted(captures)` uses, modelling the parsing provider's
node order: lexicographic on (start point, end point); captures whose nodes
share both points are treated as equivalent. -/
def captureLe (a b : Capture) : Bool :=
  pointLt a.1.startPoint b.1.startPoint ||
    (decide (a.1.startPoint = b.1.startPoint) &&
      pointLe a.1.endPoint b.1.endPoint)

/-- `Helpers.get_query_result_and_newline_data`: sort the captures ascending
(`sorted(query.captures(tree.root_node))`), reverse the sorted list
(`captures.reverse()`), and pair it with the newline offsets of the
buffer. -/
def get_query_result_and_newline_data (captures : List Capture)
    (data : List Char) : List Capture × List Nat :=
  ((captures.mergeSort captureLe).reverse, get_all_newline_offsets data)

/-- `captureLe` is total. -/
theorem captureLe_total (a b : Capture) : captureLe a b || captureLe b a := by
  simp only [captureLe, pointLt, pointLe, Bool.or_eq_true, Bool.and_eq_true,
    decide_eq_true_eq, Prod.ext_iff]
  omega

/-- `captureLe` is transitive. -/
theorem captureLe_trans (a b c : Capture) :
    captureLe a b → captureLe b c → captureLe a c := by
  simp only [captureLe, pointLt, pointLe, Bool.or_eq_true, Bool.and_eq_true,
    decide_eq_true_eq, Prod.ext_iff]
  omega

/-- Capture `a` may precede capture `b` in a match list ordered by
descending start position, ties broken by descending end position. -/
def DescendingCaptureOrder (a b : Capture) : Prop :=
  pointLt b.1.startPoint a.1.startPoint = true ∨
    (b.1.startPoint = a.1.startPoint ∧
      pointLe b.1.endPoint a.1.endPoint = true)

/-- Claim C4: for every capture list returned by the parsing provider and
every buffer, the match list produced by
`get_query_result_and_newline_data` is sorted by descending start position,
and matches with equal start positions are ordered by descending end
position. -/
theorem query_result_sorted_descending (captures : List Capture)
    (data : List Char) :
    (get_query_result_and_newline_data captures data).1.Pairwise
      DescendingCaptureOrder := by
  have hs := @List.sorted_mergeSort Capture captureLe
    (fun a b c => captureLe_trans a b c) (fun a b => captureLe_total a b)
    captures
  rw [get_query_result_and_newline_data]
  rw [List.pairwise_reverse]
  refine hs.imp ?_
  intro a b hab
  simp only [captureLe, Bool.or_eq_true, Bool.and_eq_true,
    decide_eq_true_eq] at hab
  rcases hab with h | ⟨h1, h2⟩
  · exact Or.inl h
  · exact Or.inr ⟨h1, h2⟩

/-- Resolve a (line, column) point against the newline-offset table:
`newline_offsets[line] + column`, a Python `IndexError` (modelled as `none`)
when the line is missing from the table. -/
def resolve_point (offsets : List Nat) (p : Nat × Nat) : Option Nat :=
  (offsets.get? p.1).map (fun o => o + p.2)

/-- One line printed by `print_unparsable_sections`: resolve the error
node's start and end points against the newline offsets of the buffer,
slice the offending text `data[start:end]`, and print
`"Error: " + line + ":" + column + " - [" + bad_data + "]"`. -/
def report_error (data : List Char) (e : SNode) : Option String := do
  let offsets := get_all_newline_offsets data
  let s ← resolve_point offsets e.startPoint
  let en ← resolve_point offsets e.endPoint
  let bad := (data.drop s).take (en - s)
  some ("Error: " ++ Nat.repr e.startPoint.1 ++ ":" ++ Nat.repr e.startPoint.2
    ++ " - [" ++ String.mk bad ++ "]")

/-- The observable outcome of `main` after the parse check: the error
reports printed, the formatted buffer printed (if any), and the exit
code. -/
structure RunOutcome where
  reports : List (Option String)
  output : Option (List Char)
  exitCode : Nat
deriving DecidableEq

/-- The parse-check branch of `main`: when the `(ERROR)` query produced any
captures (`len(captures) > 0`), call `print_unparsable_sections` for every
error and `sys.exit(1)` without running any formatting rule; otherwise run
the three rule groups, print the resulting buffer and `sys.exit(0)`. -/
def mainRun (errors : List SNode) (data : List Char)
    (pipe : List Char → List Char) : RunOutcome :=
  if 0 < errors.length then
    ⟨errors.map (report_error data), none, 1⟩
  else
    ⟨[], some (pipe data), 0⟩

/-- Claim C8: when the initial tree holds at least one error node, `main`
prints one report per error node (each resolving the node's location and
text excerpt via `report_error`), produces no formatted output, and exits
with code 1; with no error node, the pipeline output is printed and the
exit code is 0. -/
theorem main_parse_check_behaviour (errors : List SNode) (data : List Char)
    (pipe : List Char → List Char) :
    (errors ≠ [] →
        (mainRun errors data pipe).exitCode = 1 ∧
          (mainRun errors data pipe).output = none ∧
          (mainRun errors data pipe).reports =
            errors.map (report_error data)) ∧
      (errors = [] →
        (mainRun errors data pipe).exitCode = 0 ∧
          (mainRun errors data pipe).output = some (pipe data) ∧
          (mainRun errors data pipe).reports = []) := by
  cases errors with
  | nil => simp [mainRun]
  | cons e es => simp [mainRun]

/-- Witness for claim C8 at a concrete one-error run: the report carries the
error location as line:column and the offending excerpt in brackets, no
output is produced, and the exit code is 1. -/
theorem main_parse_check_behaviour_witness :
    ([(⟨"ERROR", (0, 0), (0, 1)⟩ : SNode)] ≠ []) ∧
      (mainRun [⟨"ERROR", (0, 0), (0, 1)⟩] ['a', 'b', 'c'] id).exitCode = 1 ∧
      (mainRun [⟨"ERROR", (0, 0), (0, 1)⟩] ['a', 'b', 'c'] id).output = none ∧
      (mainRun [⟨"ERROR", (0, 0), (0, 1)⟩] ['a', 'b', 'c'] id).reports =
        [some ("Error: 0:0 - [a]")] :=
  ⟨List.cons_ne_nil _ _,
    ((main_parse_check_behaviour _ _ _).1 (List.cons_ne_nil _ _)).1,
    ((main_parse_check_behaviour _ _ _).1 (List.cons_ne_nil _ _)).2.1,
    (((main_parse_check_behaviour [⟨"ERROR", (0, 0), (0, 1)⟩] ['a', 'b', 'c']
        id).1 (List.cons_ne_nil _ _)).2.2).trans (by decide)⟩

/-- The scan of `reversed(match[0].children)` inside
`FormatReturnStatement._FormatRule__format`: remember whether a `;` child
has been seen, and stop at the first child whose type is neither `;` nor
the closing brace (the implicit return expression); `none` when every child
is a `;` or a closing brace. -/
def find_return_statement : List SNode → Bool → Option (SNode × Bool)
  | [], _ => none
  | child :: rest, semicolon_found =>
    let found := if child.typ = ";" then true else semicolon_found
    if child.typ ≠ "\x7d" ∧ child.typ ≠ ";" then some (child, found)
    else find_return_statement rest found

/-- The body of `FormatReturnStatement._FormatRule__format` for one matched
function block: locate the return expression among the block's children,
run `re.sub(";", "", ...)` over its text - deleting every semicolon it
contains - and splice the result back, additionally dropping the buffer
character directly after the expression when a `;` child was seen. -/
def FormatReturnStatement_block (data : List Char) (children : List SNode) :
    Option (List Char) := do
  let (ret, semicolon_found) ← find_return_statement children.reverse false
  let offsets := get_all_newline_offsets data
  let s ← resolve_point offsets ret.startPoint
  let e ← resolve_point offsets ret.endPoint
  let txt := (data.drop s).take (e - s)
  let txt2 := txt.filter fun c => !(c == ';')
  if semicolon_found then
    some (data.take s ++ txt2 ++ data.drop (e + 1))
  else
    some (data.take s ++ txt2 ++ data.drop e)

/-- Claim C9: on the function block `{ { a; b } }`, whose children are the
opening brace, a nested function block `{ a; b }` (the implicit return
expression, carrying an interior semicolon) and the closing brace, the rule
rewrites the buffer to `{ { a b } }`: `re.sub(";", "", ...)` deletes the
semicolon inside the expression even though no trailing semicolon follows
it, so the expression's own content is not left unchanged. -/
theorem FormatReturnStatement_removes_inner_semicolon :
    FormatReturnStatement_block ("\x7b \x7b a; b \x7d \x7d".data)
        [⟨"\x7b", (0, 0), (0, 1)⟩,
          ⟨"function_block", (0, 2), (0, 10)⟩,
          ⟨"\x7d", (0, 11), (0, 12)⟩] =
      some ("\x7b \x7b a b \x7d \x7d".data) ∧
      ("\x7b \x7b a b \x7d \x7d".data ≠ "\x7b \x7b a; b \x7d \x7d".data) := by
  decide
